import Mathlib

/-
  Verification development for the polar resampling engine of pypov
  (class ImageToLed in pypov.py).  Machine floats and math.cos / math.sin
  are modelled over the reals; pixel channels are naturals in 0..255 as
  returned by Surface.get_at; fallible operations (pixel lookup outside
  the surface, attribute access before setImage) return Option.
-/

noncomputable section

/-- Pixel as returned by an image lookup: four integer channels in 0..255. -/
structure Pixel where
  red : ℕ
  green : ℕ
  blue : ℕ
  alpha : ℕ
deriving DecidableEq

/-- Rectangle bound of a surface anchored at the origin, as returned by get_rect. -/
structure Rect where
  width : ℕ
  height : ℕ
deriving DecidableEq

/-- Horizontal center of a rect anchored at 0, integer division as in pygame. -/
def Rect.centerx (r : Rect) : ℕ := r.width / 2

/-- Vertical center of a rect anchored at 0, integer division as in pygame. -/
def Rect.centery (r : Rect) : ℕ := r.height / 2

/-- Source image: dimensions plus the pixel grid. -/
structure Image where
  width : ℕ
  height : ℕ
  pix : ℕ → ℕ → Pixel

/-- Bound of the image, pygame Surface.get_rect. -/
def Image.get_rect (img : Image) : Rect := ⟨img.width, img.height⟩

/-- Pixel lookup, pygame Surface.get_at: an index outside the surface raises,
modelled as none. -/
def Image.get_at (img : Image) (x y : ℤ) : Option Pixel :=
  if 0 ≤ x ∧ x < (img.width : ℤ) ∧ 0 ≤ y ∧ y < (img.height : ℤ) then
    some (img.pix x.toNat y.toNat)
  else none

/-- Module level globals read by getLedColor: the loaded image (variable img of
the main script) and backgroundFrameColor. -/
structure Globals where
  img : Image
  backgroundFrameColor : ℕ × ℕ × ℕ

/-- Degrees to radians, function getAngleRads of pypov.py. -/
def getAngleRads (angleDegs : ℝ) : ℝ := angleDegs * Real.pi / 180

/-- Truncation toward zero, Python int() on a float. -/
def truncInt (x : ℝ) : ℤ := if 0 ≤ x then ⌊x⌋ else ⌈x⌉

/-- State of an ImageToLed instance.  The configuration fields are set by
__init__; img and imgBound are absent (none) until setImage runs. -/
structure ImageToLed where
  angleAverageResolution : ℝ
  rAverageResolution : ℝ
  angleAveragePoints : ℕ
  rAveragePoints : ℕ
  numberOfAveragedPixels : ℕ
  img : Option Image
  imgBound : Option Rect

/-- ImageToLed.__init__: even point counts are bumped to odd, the angular
resolution is converted to radians (also when it is the literal 0), and the
total averaged pixel count is the product of the coerced counts. -/
def ImageToLed.init (angleAverageSpan : ℝ) (angleAveragePoints : ℕ)
    (rAverageSpan : ℝ) (rAveragePoints : ℕ) : ImageToLed :=
  let angleAveragePoints :=
    if angleAveragePoints % 2 = 0 then angleAveragePoints + 1 else angleAveragePoints
  let angleAverageResolution : ℝ :=
    if 1 < angleAveragePoints then angleAverageSpan / ((angleAveragePoints : ℝ) - 1) else 0
  let angleAverageResolution := getAngleRads angleAverageResolution
  let rAveragePoints :=
    if rAveragePoints % 2 = 0 then rAveragePoints + 1 else rAveragePoints
  let rAverageResolution : ℝ :=
    if 1 < rAveragePoints then rAverageSpan / ((rAveragePoints : ℝ) - 1) else 0
  ⟨angleAverageResolution, rAverageResolution, angleAveragePoints, rAveragePoints,
    angleAveragePoints * rAveragePoints, none, none⟩

/-- ImageToLed.setImage: stores the image and its rect; the configuration
fields are untouched. -/
def ImageToLed.setImage (s : ImageToLed) (img : Image) : ImageToLed :=
  ⟨s.angleAverageResolution, s.rAverageResolution, s.angleAveragePoints,
    s.rAveragePoints, s.numberOfAveragedPixels, some img, some img.get_rect⟩

/-- Body of ImageToLed.getLedColorArea once the bound is available: the outer
loop runs over the angular sample index t, the inner loop over the radial
sample index r, and each cell is the polar offset point projected to Cartesian
coordinates and then vertically flipped. -/
def footprintGrid (s : ImageToLed) (bound : Rect) (angle ledRPosition : ℝ) :
    List (List (ℝ × ℝ)) :=
  (List.range s.angleAveragePoints).map fun (t : ℕ) =>
    let dangle := getAngleRads angle
    let dangle := dangle +
      s.angleAverageResolution * ((t : ℝ) - ((s.angleAveragePoints : ℝ) - 1) / 2)
    (List.range s.rAveragePoints).map fun (r : ℕ) =>
      let dr := ledRPosition
      let dr := dr + s.rAverageResolution * ((r : ℝ) - ((s.rAveragePoints : ℝ) - 1) / 2)
      let xPosition := (bound.centerx : ℝ)
      let xPosition := xPosition + dr * Real.cos dangle
      let yPosition := (bound.centery : ℝ)
      let yPosition := yPosition + dr * Real.sin dangle
      let yPosition := (bound.height : ℝ) - yPosition
      (xPosition, yPosition)

/-- ImageToLed.getLedColorArea: accessing self.imgBound before setImage raises,
modelled by the Option. -/
def ImageToLed.getLedColorArea (s : ImageToLed) (angle ledRPosition : ℝ) :
    Option (List (List (ℝ × ℝ))) :=
  s.imgBound.map fun bound => footprintGrid s bound angle ledRPosition

/-- Accumulator state of the getLedColor loop: the three channel sums and the
lastGoodPixel reference. -/
structure AccState where
  red : ℝ
  green : ℝ
  blue : ℝ
  lastGoodPixel : Pixel

/-- Initial lastGoodPixel of a getLedColor traversal: the background color at
full opacity (pypov.py line 90). -/
def bgPixel (G : Globals) : Pixel :=
  ⟨G.backgroundFrameColor.1, G.backgroundFrameColor.2.1, G.backgroundFrameColor.2.2, 255⟩

/-- The transparency substitution of pypov.py lines 104-107: when the alpha
channel is below 1 the R/G/B channels are overwritten with the background
color; the alpha channel is left as it is. -/
def substPixel (bg : ℕ × ℕ × ℕ) (p : Pixel) : Pixel :=
  if p.alpha < 1 then ⟨bg.1, bg.2.1, bg.2.2, p.alpha⟩ else p

/-- One accumulation step of the getLedColor loop on the pixel chosen for the
current sample point.  In the Python code the substitution mutates the pixel
object in place, and lastGoodPixel aliases that object whenever it was the
pixel used (either because the point was in bounds and lastGoodPixel was just
assigned from it, or because the point was out of bounds and the pixel IS
lastGoodPixel); hence after the iteration lastGoodPixel always holds the
substituted pixel, which is what this immutable model stores. -/
def accumulate (bg : ℕ × ℕ × ℕ) (st : AccState) (imgPixelColor : Pixel) : AccState :=
  let alphaValue := imgPixelColor.alpha
  let px := substPixel bg imgPixelColor
  ⟨st.red + (px.red : ℝ) * (alphaValue : ℝ) / 255,
   st.green + (px.green : ℝ) * (alphaValue : ℝ) / 255,
   st.blue + (px.blue : ℝ) * (alphaValue : ℝ) / 255,
   px⟩

/-- In-bounds test of pypov.py line 96, on the pre-truncation coordinates. -/
def inBounds (bound : Rect) (aa : ℝ × ℝ) : Prop :=
  aa.1 > -1 ∧ aa.1 < (bound.width : ℝ) ∧ aa.2 > -1 ∧ aa.2 < (bound.height : ℝ)

instance (bound : Rect) (aa : ℝ × ℝ) : Decidable (inBounds bound aa) := by
  unfold inBounds; infer_instance

/-- One iteration of the inner loop of getLedColor: an in-bounds point looks
the pixel up in the module-global image (pypov.py line 97 reads the global
img, not self.img), an out-of-bounds point substitutes lastGoodPixel. -/
def processPoint (G : Globals) (bound : Rect) (st : AccState) (aa : ℝ × ℝ) :
    Option AccState :=
  if inBounds bound aa then
    (G.img.get_at (truncInt aa.1) (truncInt aa.2)).map fun imgPixelColor =>
      accumulate G.backgroundFrameColor st imgPixelColor
  else
    some (accumulate G.backgroundFrameColor st st.lastGoodPixel)

/-- The inner for-loop of getLedColor over one row of the footprint. -/
def processPoints (G : Globals) (bound : Rect) (st : AccState) :
    List (ℝ × ℝ) → Option AccState
  | [] => some st
  | aa :: rest =>
    (processPoint G bound st aa).bind fun st2 => processPoints G bound st2 rest

/-- The outer for-loop of getLedColor over the rows of the footprint. -/
def processRows (G : Globals) (bound : Rect) (st : AccState) :
    List (List (ℝ × ℝ)) → Option AccState
  | [] => some st
  | rr :: rest =>
    (processPoints G bound st rr).bind fun st2 => processRows G bound st2 rest

/-- Accumulator at the start of a getLedColor traversal. -/
def initialAcc (G : Globals) : AccState := ⟨0, 0, 0, bgPixel G⟩

/-- ImageToLed.getLedColor: computes the footprint, traverses it angle-major
and radius-minor accumulating alpha-weighted channel sums, and divides each
sum by numberOfAveragedPixels. -/
def ImageToLed.getLedColor (s : ImageToLed) (G : Globals) (angle ledRPosition : ℝ) :
    Option (ℝ × ℝ × ℝ) :=
  s.imgBound.bind fun bound =>
    (s.getLedColorArea angle ledRPosition).bind fun averageArea =>
      (processRows G bound (initialAcc G) averageArea).map fun final =>
        (final.red / (s.numberOfAveragedPixels : ℝ),
         final.green / (s.numberOfAveragedPixels : ℝ),
         final.blue / (s.numberOfAveragedPixels : ℝ))

/-- The while-loop of ImageToLed.getLedColors, unrolled from a given start
angle.  The source loop diverges for a nonpositive increment, so the model
carries the positivity needed for termination. -/
def getLedColorsFrom (G : Globals) (s : ImageToLed)
    (angleIncrement ledRPosition : ℝ) (hinc : 0 < angleIncrement) (angle : ℝ) :
    Option (List (ℝ × ℝ × ℝ)) :=
  if _hlt : angle < 360 then
    match s.getLedColor G angle ledRPosition with
    | none => none
    | some c =>
      match getLedColorsFrom G s angleIncrement ledRPosition hinc (angle + angleIncrement) with
      | none => none
      | some rest => some (c :: rest)
  else some []
termination_by Nat.ceil ((360 - angle) / angleIncrement)
decreasing_by
  have hx : 0 < (360 - angle) / angleIncrement := div_pos (by linarith) hinc
  rw [Nat.lt_ceil]
  have h1 : (360 - (angle + angleIncrement)) / angleIncrement =
      (360 - angle) / angleIncrement - 1 := by
    field_simp
    ring
  rw [h1]
  rcases le_or_lt ((360 - angle) / angleIncrement) 1 with hle | hlt
  · have h0 : Nat.ceil ((360 - angle) / angleIncrement - 1) = 0 :=
      Nat.ceil_eq_zero.mpr (by linarith)
    rw [h0]
    push_cast
    linarith
  · have h0 : (0 : ℝ) ≤ (360 - angle) / angleIncrement - 1 := by linarith
    have h2 := Nat.ceil_lt_add_one h0
    linarith

/-- ImageToLed.getLedColors: sweep the angle from 0 while it is below 360. -/
def ImageToLed.getLedColors (s : ImageToLed) (G : Globals)
    (angleIncrement ledRPosition : ℝ) (hinc : 0 < angleIncrement) :
    Option (List (ℝ × ℝ × ℝ)) :=
  getLedColorsFrom G s angleIncrement ledRPosition hinc 0

/-- Spec-side footprint, written after the words of the specification: the
cell for angular index t and radial index r is
x = imageCenterX + sampleRadius * cos(sampleAngle) and
y = imageHeight - (imageCenterY + sampleRadius * sin(sampleAngle)) with
sampleAngle = toRadians(angle) + angleStep * (t - (n-1)/2) and
sampleRadius = radius + radiusStep * (r - (m-1)/2). -/
def specFootprintGrid (s : ImageToLed) (bound : Rect) (angle ledRPosition : ℝ) :
    List (List (ℝ × ℝ)) :=
  (List.range s.angleAveragePoints).map fun (t : ℕ) =>
    (List.range s.rAveragePoints).map fun (r : ℕ) =>
      let sampleAngle := getAngleRads angle +
        s.angleAverageResolution * ((t : ℝ) - ((s.angleAveragePoints : ℝ) - 1) / 2)
      let sampleRadius := ledRPosition +
        s.rAverageResolution * ((r : ℝ) - ((s.rAveragePoints : ℝ) - 1) / 2)
      ((bound.centerx : ℝ) + sampleRadius * Real.cos sampleAngle,
       (bound.height : ℝ) - ((bound.centery : ℝ) + sampleRadius * Real.sin sampleAngle))

/-- The footprint cell for angular index t and radial index r, named for
indexing statements. -/
def specCell (s : ImageToLed) (bound : Rect) (angle ledRPosition : ℝ) (t r : ℕ) :
    ℝ × ℝ :=
  ((bound.centerx : ℝ) +
    (ledRPosition + s.rAverageResolution * ((r : ℝ) - ((s.rAveragePoints : ℝ) - 1) / 2)) *
      Real.cos (getAngleRads angle +
        s.angleAverageResolution * ((t : ℝ) - ((s.angleAveragePoints : ℝ) - 1) / 2)),
   (bound.height : ℝ) - ((bound.centery : ℝ) +
    (ledRPosition + s.rAverageResolution * ((r : ℝ) - ((s.rAveragePoints : ℝ) - 1) / 2)) *
      Real.sin (getAngleRads angle +
        s.angleAverageResolution * ((t : ℝ) - ((s.angleAveragePoints : ℝ) - 1) / 2))))

/-- Spec-side contribution of one visited pixel: its R/G/B (substituted with
the background when alpha is below 1) weighted by alpha/255. -/
def specContribution (bg : ℕ × ℕ × ℕ) (p : Pixel) : ℝ × ℝ × ℝ :=
  (((substPixel bg p).red : ℝ) * (p.alpha : ℝ) / 255,
   ((substPixel bg p).green : ℝ) * (p.alpha : ℝ) / 255,
   ((substPixel bg p).blue : ℝ) * (p.alpha : ℝ) / 255)

/-- Spec-side visit of one footprint point, written after the words of the
specification: take the pixel when in bounds and remember it (unsubstituted)
as the most recent in-bounds pixel, otherwise take that remembered pixel, and
accumulate the alpha-weighted contribution. -/
def specVisit (G : Globals) (bound : Rect) (st : AccState) (aa : ℝ × ℝ) : AccState :=
  let p := if inBounds bound aa then
    G.img.pix (truncInt aa.1).toNat (truncInt aa.2).toNat
  else st.lastGoodPixel
  let c := specContribution G.backgroundFrameColor p
  ⟨st.red + c.1, st.green + c.2.1, st.blue + c.2.2,
    if inBounds bound aa then p else st.lastGoodPixel⟩

/-- Spec-side sampleColor, written after the words of the specification: fold
the visit over the footprint flattened in angle-major radius-minor order and
divide every channel sum by angleSamplePoints * radiusSamplePoints. -/
def specSampleColor (G : Globals) (s : ImageToLed) (bound : Rect)
    (angle ledRPosition : ℝ) : ℝ × ℝ × ℝ :=
  let final := ((specFootprintGrid s bound angle ledRPosition).flatten).foldl
    (specVisit G bound) (initialAcc G)
  (final.red / ((s.angleAveragePoints * s.rAveragePoints : ℕ) : ℝ),
   final.green / ((s.angleAveragePoints * s.rAveragePoints : ℕ) : ℝ),
   final.blue / ((s.angleAveragePoints * s.rAveragePoints : ℕ) : ℝ))

/-- The most recent pixel that an in-bounds point of the list would have
looked up, none when no point of the list is in bounds. -/
def lastInBoundsPixel (G : Globals) (bound : Rect) : List (ℝ × ℝ) → Option Pixel
  | [] => none
  | aa :: rest =>
    match lastInBoundsPixel G bound rest with
    | some p => some p
    | none =>
      if inBounds bound aa then
        some (G.img.pix (truncInt aa.1).toNat (truncInt aa.2).toNat)
      else none

/-- Relation between a code accumulator and a spec accumulator: equal channel
sums, and the code lastGoodPixel is the substituted form of the spec one
(the in-place channel overwrite of pypov.py aliases into lastGoodPixel). -/
def AccRel (bg : ℕ × ℕ × ℕ) (c s : AccState) : Prop :=
  c.red = s.red ∧ c.green = s.green ∧ c.blue = s.blue ∧
    c.lastGoodPixel = substPixel bg s.lastGoodPixel

/-- Undisplaced polar-to-Cartesian projection of a query, with the vertical
flip, used to state the middle-of-footprint property. -/
def plainProjection (bound : Rect) (angle ledRPosition : ℝ) : ℝ × ℝ :=
  ((bound.centerx : ℝ) + ledRPosition * Real.cos (getAngleRads angle),
   (bound.height : ℝ) - ((bound.centery : ℝ) + ledRPosition * Real.sin (getAngleRads angle)))

/-- Witness fixture: a 1x1 fully red image. -/
def wImgRed : Image := ⟨1, 1, fun _ _ => ⟨255, 0, 0, 255⟩⟩

/-- Witness fixture: globals holding the red image over a black background. -/
def wGlobRed : Globals := ⟨wImgRed, (0, 0, 0)⟩

/-- Witness fixture: a 1x1 image with a distinctive color. -/
def wImgQ : Image := ⟨1, 1, fun _ _ => ⟨12, 34, 56, 255⟩⟩

/-- Witness fixture: globals holding that image over a black background. -/
def wGlobQ : Globals := ⟨wImgQ, (0, 0, 0)⟩

/-- Witness fixture: a sampler of a single sample point attached to wImgQ. -/
def wStateQ : ImageToLed := (ImageToLed.init 0 1 0 1).setImage wImgQ

/-- Witness fixture: a 3x3 fully transparent image. -/
def wImgT : Image := ⟨3, 3, fun _ _ => ⟨7, 8, 9, 0⟩⟩

/-- Witness fixture: globals holding the transparent image over white. -/
def wGlobT : Globals := ⟨wImgT, (255, 255, 255)⟩

/-- Witness fixture: a sampler of a single sample point attached to wImgT. -/
def wStateT : ImageToLed := (ImageToLed.init 0 1 0 1).setImage wImgT

/-- Witness fixture: a 2x2 image of one color. -/
def wImgA : Image := ⟨2, 2, fun _ _ => ⟨1, 2, 3, 255⟩⟩

/-- Witness fixture: a 2x2 image of another color, same dimensions as wImgA. -/
def wImgB : Image := ⟨2, 2, fun _ _ => ⟨9, 9, 9, 255⟩⟩

-- Basic facts about the substitution and accumulation steps.

lemma substPixel_alpha (bg : ℕ × ℕ × ℕ) (p : Pixel) :
    (substPixel bg p).alpha = p.alpha := by
  unfold substPixel
  split <;> rfl

lemma substPixel_idem (bg : ℕ × ℕ × ℕ) (p : Pixel) :
    substPixel bg (substPixel bg p) = substPixel bg p := by
  unfold substPixel
  split <;> simp_all

lemma substPixel_bgPixel (G : Globals) :
    substPixel G.backgroundFrameColor (bgPixel G) = bgPixel G := by
  unfold substPixel bgPixel
  norm_num

lemma accumulate_red (bg : ℕ × ℕ × ℕ) (st : AccState) (p : Pixel) :
    (accumulate bg st p).red =
      st.red + ((substPixel bg p).red : ℝ) * (p.alpha : ℝ) / 255 := rfl

lemma accumulate_green (bg : ℕ × ℕ × ℕ) (st : AccState) (p : Pixel) :
    (accumulate bg st p).green =
      st.green + ((substPixel bg p).green : ℝ) * (p.alpha : ℝ) / 255 := rfl

lemma accumulate_blue (bg : ℕ × ℕ × ℕ) (st : AccState) (p : Pixel) :
    (accumulate bg st p).blue =
      st.blue + ((substPixel bg p).blue : ℝ) * (p.alpha : ℝ) / 255 := rfl

lemma accumulate_lastGood (bg : ℕ × ℕ × ℕ) (st : AccState) (p : Pixel) :
    (accumulate bg st p).lastGoodPixel = substPixel bg p := rfl

lemma accumulate_substPixel (bg : ℕ × ℕ × ℕ) (st : AccState) (p : Pixel) :
    accumulate bg st (substPixel bg p) = accumulate bg st p := by
  unfold accumulate
  rw [substPixel_idem, substPixel_alpha]

-- Truncation toward zero stays inside the image when the pre-truncation
-- coordinate passes the -1 < x < width test and the image is at least one
-- pixel wide.

lemma truncInt_nonneg (x : ℝ) (hx : -1 < x) : 0 ≤ truncInt x := by
  unfold truncInt
  split_ifs with h
  · exact Int.floor_nonneg.mpr h
  · have h2 : (-1 : ℤ) < ⌈x⌉ := by
      rw [Int.lt_ceil]
      push_cast
      exact hx
    omega

lemma truncInt_lt (x : ℝ) (w : ℕ) (hw : 1 ≤ w) (hx : x < (w : ℝ)) :
    truncInt x < (w : ℤ) := by
  unfold truncInt
  split_ifs with h
  · exact Int.floor_lt.mpr (by exact_mod_cast hx)
  · push_neg at h
    have h2 : ⌈x⌉ ≤ 0 := by
      rw [show (0 : ℤ) = ((0 : ℤ)) from rfl, Int.ceil_le]
      push_cast
      exact h.le
    have h3 : (1 : ℤ) ≤ (w : ℤ) := by exact_mod_cast hw
    omega

lemma truncInt_eq_zero (x : ℝ) (h1 : -1 < x) (h2 : x < 1) : truncInt x = 0 := by
  have ha := truncInt_nonneg x h1
  have hb := truncInt_lt x 1 le_rfl (by exact_mod_cast h2)
  omega

lemma get_at_of_inBounds (G : Globals) (bound : Rect)
    (hbw : bound.width = G.img.width) (hbh : bound.height = G.img.height)
    (hw : 1 ≤ G.img.width) (hh : 1 ≤ G.img.height)
    (aa : ℝ × ℝ) (hin : inBounds bound aa) :
    G.img.get_at (truncInt aa.1) (truncInt aa.2) =
      some (G.img.pix (truncInt aa.1).toNat (truncInt aa.2).toNat) := by
  obtain ⟨h1, h2, h3, h4⟩ := hin
  rw [hbw] at h2
  rw [hbh] at h4
  unfold Image.get_at
  rw [if_pos]
  exact ⟨truncInt_nonneg _ h1, truncInt_lt _ _ hw h2,
    truncInt_nonneg _ h3, truncInt_lt _ _ hh h4⟩

-- Loop facts: appending, and the nested loop over rows is the loop over the
-- flattened footprint.

lemma processPoints_append (G : Globals) (bound : Rect) :
    ∀ (ps qs : List (ℝ × ℝ)) (st : AccState),
      processPoints G bound st (ps ++ qs) =
        (processPoints G bound st ps).bind fun st2 => processPoints G bound st2 qs := by
  intro ps
  induction ps with
  | nil => intro qs st; simp [processPoints]
  | cons aa rest ih =>
    intro qs st
    show (processPoint G bound st aa).bind (fun st2 => processPoints G bound st2 (rest ++ qs)) =
      ((processPoint G bound st aa).bind fun st2 => processPoints G bound st2 rest).bind
        fun st2 => processPoints G bound st2 qs
    cases hp : processPoint G bound st aa with
    | none => rfl
    | some st2 =>
      rw [Option.some_bind', Option.some_bind']
      exact ih qs st2

lemma processRows_eq_flatten (G : Globals) (bound : Rect) :
    ∀ (rows : List (List (ℝ × ℝ))) (st : AccState),
      processRows G bound st rows = processPoints G bound st rows.flatten := by
  intro rows
  induction rows with
  | nil => intro st; rfl
  | cons rr rest ih =>
    intro st
    show (processPoints G bound st rr).bind _ = _
    rw [List.flatten_cons, processPoints_append]
    cases hp : processPoints G bound st rr with
    | none => simp
    | some st2 => simp [ih]

-- Refinement of the loop body against the spec-side visit.

lemma processPoint_spec (G : Globals) (bound : Rect)
    (hbw : bound.width = G.img.width) (hbh : bound.height = G.img.height)
    (hw : 1 ≤ G.img.width) (hh : 1 ≤ G.img.height)
    (c s : AccState) (h : AccRel G.backgroundFrameColor c s) (aa : ℝ × ℝ) :
    ∃ c2, processPoint G bound c aa = some c2 ∧
      AccRel G.backgroundFrameColor c2 (specVisit G bound s aa) := by
  obtain ⟨h1, h2, h3, h4⟩ := h
  by_cases hin : inBounds bound aa
  · refine ⟨accumulate G.backgroundFrameColor c
      (G.img.pix (truncInt aa.1).toNat (truncInt aa.2).toNat), ?_, ?_⟩
    · unfold processPoint
      rw [if_pos hin, get_at_of_inBounds G bound hbw hbh hw hh aa hin]
      rfl
    · unfold specVisit
      rw [if_pos hin]
      refine ⟨?_, ?_, ?_, ?_⟩
      · simp [accumulate_red, specContribution, h1]
      · simp [accumulate_green, specContribution, h2]
      · simp [accumulate_blue, specContribution, h3]
      · simp [accumulate_lastGood, if_pos hin]
  · refine ⟨accumulate G.backgroundFrameColor c c.lastGoodPixel, ?_, ?_⟩
    · unfold processPoint
      rw [if_neg hin]
    · rw [h4, accumulate_substPixel]
      unfold specVisit
      rw [if_neg hin]
      refine ⟨?_, ?_, ?_, ?_⟩
      · simp [accumulate_red, specContribution, h1]
      · simp [accumulate_green, specContribution, h2]
      · simp [accumulate_blue, specContribution, h3]
      · simp [accumulate_lastGood, if_neg hin]

lemma processPoints_spec (G : Globals) (bound : Rect)
    (hbw : bound.width = G.img.width) (hbh : bound.height = G.img.height)
    (hw : 1 ≤ G.img.width) (hh : 1 ≤ G.img.height) :
    ∀ (ps : List (ℝ × ℝ)) (c s : AccState),
      AccRel G.backgroundFrameColor c s →
      ∃ c2, processPoints G bound c ps = some c2 ∧
        AccRel G.backgroundFrameColor c2 (ps.foldl (specVisit G bound) s) := by
  intro ps
  induction ps with
  | nil => intro c s h; exact ⟨c, rfl, h⟩
  | cons aa rest ih =>
    intro c s h
    obtain ⟨c1, hc1, hrel1⟩ := processPoint_spec G bound hbw hbh hw hh c s h aa
    obtain ⟨c2, hc2, hrel2⟩ := ih c1 (specVisit G bound s aa) hrel1
    refine ⟨c2, ?_, ?_⟩
    · unfold processPoints
      rw [hc1]
      exact hc2
    · simpa using hrel2

lemma AccRel_initial (G : Globals) :
    AccRel G.backgroundFrameColor (initialAcc G) (initialAcc G) :=
  ⟨rfl, rfl, rfl, (substPixel_bgPixel G).symm⟩

-- The footprint written by the code equals the spec-side formula cell by cell.

lemma footprintGrid_eq_spec (s : ImageToLed) (bound : Rect) (angle ledRPosition : ℝ) :
    footprintGrid s bound angle ledRPosition =
      specFootprintGrid s bound angle ledRPosition := rfl

lemma footprintGrid_flatten_length (s : ImageToLed) (bound : Rect)
    (angle ledRPosition : ℝ) :
    (footprintGrid s bound angle ledRPosition).flatten.length =
      s.angleAveragePoints * s.rAveragePoints := by
  unfold footprintGrid
  rw [List.length_flatten, List.map_map]
  have h : ((List.range s.angleAveragePoints).map fun t => s.rAveragePoints).sum =
      s.angleAveragePoints * s.rAveragePoints := by
    rw [List.map_const', List.sum_replicate, List.length_range, smul_eq_mul]
  rw [← h]
  congr 1
  apply List.map_congr_left
  intro t _
  simp

-- Facts about the constructed configuration.

lemma init_angleAveragePoints_eq (a : ℝ) (p : ℕ) (b : ℝ) (q : ℕ) :
    (ImageToLed.init a p b q).angleAveragePoints =
      (if p % 2 = 0 then p + 1 else p) := rfl

lemma init_rAveragePoints_eq (a : ℝ) (p : ℕ) (b : ℝ) (q : ℕ) :
    (ImageToLed.init a p b q).rAveragePoints =
      (if q % 2 = 0 then q + 1 else q) := rfl

lemma init_angleAveragePoints_odd (a : ℝ) (p : ℕ) (b : ℝ) (q : ℕ) :
    Odd ((ImageToLed.init a p b q).angleAveragePoints) := by
  rw [init_angleAveragePoints_eq, Nat.odd_iff]
  split_ifs with h <;> omega

lemma init_rAveragePoints_odd (a : ℝ) (p : ℕ) (b : ℝ) (q : ℕ) :
    Odd ((ImageToLed.init a p b q).rAveragePoints) := by
  rw [init_rAveragePoints_eq, Nat.odd_iff]
  split_ifs with h <;> omega

lemma init_numberOfAveragedPixels_eq (a : ℝ) (p : ℕ) (b : ℝ) (q : ℕ) :
    (ImageToLed.init a p b q).numberOfAveragedPixels =
      (ImageToLed.init a p b q).angleAveragePoints *
        (ImageToLed.init a p b q).rAveragePoints := rfl

lemma setImage_config (s : ImageToLed) (img : Image) :
    (s.setImage img).angleAverageResolution = s.angleAverageResolution ∧
    (s.setImage img).rAverageResolution = s.rAverageResolution ∧
    (s.setImage img).angleAveragePoints = s.angleAveragePoints ∧
    (s.setImage img).rAveragePoints = s.rAveragePoints ∧
    (s.setImage img).numberOfAveragedPixels = s.numberOfAveragedPixels :=
  ⟨rfl, rfl, rfl, rfl, rfl⟩

-- Characterisation of lastGoodPixel along a traversal.

lemma lastInBoundsPixel_cons (G : Globals) (bound : Rect) (aa : ℝ × ℝ)
    (rest : List (ℝ × ℝ)) :
    lastInBoundsPixel G bound (aa :: rest) =
      match lastInBoundsPixel G bound rest with
      | some p => some p
      | none =>
        if inBounds bound aa then
          some (G.img.pix (truncInt aa.1).toNat (truncInt aa.2).toNat)
        else none := rfl

lemma processPoints_lastGood (G : Globals) (bound : Rect)
    (hbw : bound.width = G.img.width) (hbh : bound.height = G.img.height)
    (hw : 1 ≤ G.img.width) (hh : 1 ≤ G.img.height) :
    ∀ (ps : List (ℝ × ℝ)) (st : AccState),
      substPixel G.backgroundFrameColor st.lastGoodPixel = st.lastGoodPixel →
      ∃ st2, processPoints G bound st ps = some st2 ∧
        st2.lastGoodPixel = substPixel G.backgroundFrameColor
          ((lastInBoundsPixel G bound ps).getD st.lastGoodPixel) := by
  intro ps
  induction ps with
  | nil =>
    intro st hfix
    exact ⟨st, rfl, by simp [lastInBoundsPixel, hfix]⟩
  | cons aa rest ih =>
    intro st hfix
    by_cases hin : inBounds bound aa
    · have hstep : processPoint G bound st aa = some (accumulate G.backgroundFrameColor st
        (G.img.pix (truncInt aa.1).toNat (truncInt aa.2).toNat)) := by
        unfold processPoint
        rw [if_pos hin, get_at_of_inBounds G bound hbw hbh hw hh aa hin]
        rfl
      have hfix1 : substPixel G.backgroundFrameColor
          (accumulate G.backgroundFrameColor st
            (G.img.pix (truncInt aa.1).toNat (truncInt aa.2).toNat)).lastGoodPixel =
          (accumulate G.backgroundFrameColor st
            (G.img.pix (truncInt aa.1).toNat (truncInt aa.2).toNat)).lastGoodPixel := by
        rw [accumulate_lastGood, substPixel_idem]
      obtain ⟨st2, hst2, hlast⟩ := ih _ hfix1
      refine ⟨st2, ?_, ?_⟩
      · show (processPoint G bound st aa).bind _ = _
        rw [hstep, Option.some_bind']
        exact hst2
      · rw [hlast, accumulate_lastGood, lastInBoundsPixel_cons]
        cases hq : lastInBoundsPixel G bound rest with
        | some q => simp [hq]
        | none => simp [hq, if_pos hin, substPixel_idem]
    · have hstep : processPoint G bound st aa =
          some (accumulate G.backgroundFrameColor st st.lastGoodPixel) := by
        unfold processPoint
        rw [if_neg hin]
      have hfix1 : substPixel G.backgroundFrameColor
          (accumulate G.backgroundFrameColor st st.lastGoodPixel).lastGoodPixel =
          (accumulate G.backgroundFrameColor st st.lastGoodPixel).lastGoodPixel := by
        rw [accumulate_lastGood, substPixel_idem]
      have hsame : (accumulate G.backgroundFrameColor st st.lastGoodPixel).lastGoodPixel =
          st.lastGoodPixel := by
        rw [accumulate_lastGood, hfix]
      obtain ⟨st2, hst2, hlast⟩ := ih _ hfix1
      refine ⟨st2, ?_, ?_⟩
      · show (processPoint G bound st aa).bind _ = _
        rw [hstep, Option.some_bind']
        exact hst2
      · rw [hlast, hsame, lastInBoundsPixel_cons]
        cases hq : lastInBoundsPixel G bound rest with
        | some q => simp [hq]
        | none => simp [hq, if_neg hin]

-- Unfolding getLedColor once the bound is available, and totality.

lemma getLedColor_eq (G : Globals) (s : ImageToLed) (bound : Rect)
    (hb : s.imgBound = some bound) (angle ledRPosition : ℝ) :
    s.getLedColor G angle ledRPosition =
      (processRows G bound (initialAcc G)
        (footprintGrid s bound angle ledRPosition)).map fun final =>
          (final.red / (s.numberOfAveragedPixels : ℝ),
           final.green / (s.numberOfAveragedPixels : ℝ),
           final.blue / (s.numberOfAveragedPixels : ℝ)) := by
  unfold ImageToLed.getLedColor ImageToLed.getLedColorArea
  rw [hb]
  rfl

lemma processRows_spec (G : Globals) (s : ImageToLed) (bound : Rect)
    (hbw : bound.width = G.img.width) (hbh : bound.height = G.img.height)
    (hw : 1 ≤ G.img.width) (hh : 1 ≤ G.img.height) (angle ledRPosition : ℝ) :
    ∃ final, processRows G bound (initialAcc G)
        (footprintGrid s bound angle ledRPosition) = some final ∧
      AccRel G.backgroundFrameColor final
        ((footprintGrid s bound angle ledRPosition).flatten.foldl
          (specVisit G bound) (initialAcc G)) := by
  rw [processRows_eq_flatten]
  exact processPoints_spec G bound hbw hbh hw hh _ _ _ (AccRel_initial G)

lemma getLedColor_total_aux (G : Globals) (s : ImageToLed) (bound : Rect)
    (hb : s.imgBound = some bound)
    (hbw : bound.width = G.img.width) (hbh : bound.height = G.img.height)
    (hw : 1 ≤ G.img.width) (hh : 1 ≤ G.img.height) (angle ledRPosition : ℝ) :
    ∃ c, s.getLedColor G angle ledRPosition = some c := by
  obtain ⟨final, hfin, _⟩ := processRows_spec G s bound hbw hbh hw hh angle ledRPosition
  rw [getLedColor_eq G s bound hb angle ledRPosition, hfin]
  exact ⟨_, rfl⟩

/-- C1: for every sampling configuration, image, background color and query,
getLedColor returns the color obtained by visiting every footprint point in
angle-major radius-minor order, taking the pixel or its boundary substitute,
replacing R/G/B with the background R/G/B when alpha is below 1, accumulating
channel * alpha / 255, and dividing each accumulated channel by
angleSamplePoints * radiusSamplePoints (the full point count, never an
alpha-weighted normalisation). -/
theorem getLedColor_eq_specSampleColor (G : Globals) (s : ImageToLed) (bound : Rect)
    (hb : s.imgBound = some bound)
    (hbw : bound.width = G.img.width) (hbh : bound.height = G.img.height)
    (hw : 1 ≤ G.img.width) (hh : 1 ≤ G.img.height)
    (hN : s.numberOfAveragedPixels = s.angleAveragePoints * s.rAveragePoints)
    (angle ledRPosition : ℝ) :
    s.getLedColor G angle ledRPosition =
      some (specSampleColor G s bound angle ledRPosition) := by
  obtain ⟨final, hfin, h1, h2, h3, _⟩ :=
    processRows_spec G s bound hbw hbh hw hh angle ledRPosition
  rw [getLedColor_eq G s bound hb angle ledRPosition, hfin]
  unfold specSampleColor
  rw [← footprintGrid_eq_spec]
  simp only [Option.map_some']
  rw [h1, h2, h3, hN]

/-- Witness for C1 at a concrete configuration, image and query. -/
theorem getLedColor_eq_specSampleColor_witness :
    wStateQ.getLedColor wGlobQ 0 0 =
      some (specSampleColor wGlobQ wStateQ wImgQ.get_rect 0 0) :=
  getLedColor_eq_specSampleColor wGlobQ wStateQ wImgQ.get_rect rfl rfl rfl
    le_rfl le_rfl rfl 0 0

/-- C2: for every configuration and query, getLedColorArea returns the grid
indexed angle-major of size angleSamplePoints x radiusSamplePoints whose cell
is the offset polar point projected to x = centerX + sampleRadius * cos and
y = height - (centerY + sampleRadius * sin), the vertical flip applied to
every cell. -/
theorem getLedColorArea_eq_specFootprintGrid (s : ImageToLed) (bound : Rect)
    (hb : s.imgBound = some bound) (angle ledRPosition : ℝ) :
    s.getLedColorArea angle ledRPosition =
      some (specFootprintGrid s bound angle ledRPosition) := by
  unfold ImageToLed.getLedColorArea
  rw [hb]
  rfl

/-- Witness for C2 at a concrete configuration and query. -/
theorem getLedColorArea_eq_specFootprintGrid_witness :
    wStateQ.getLedColorArea 0 0 = some (specFootprintGrid wStateQ wImgQ.get_rect 0 0) :=
  getLedColorArea_eq_specFootprintGrid wStateQ wImgQ.get_rect rfl 0 0

/-- C6: getLedColor is total: for every finite query and every image of at
least one pixel attached through setImage, it produces a color; the pixel
lookups happen only when the pre-truncation coordinates pass the
-1 < x < width and -1 < y < height test, so the truncated indices are valid. -/
theorem getLedColor_total (G : Globals) (a : ℝ) (p : ℕ) (b : ℝ) (q : ℕ)
    (hw : 1 ≤ G.img.width) (hh : 1 ≤ G.img.height) (angle ledRPosition : ℝ) :
    ∃ c, ((ImageToLed.init a p b q).setImage G.img).getLedColor G angle ledRPosition =
      some c :=
  getLedColor_total_aux G _ G.img.get_rect rfl rfl rfl hw hh angle ledRPosition

/-- Witness for C6 at a concrete configuration, image and query. -/
theorem getLedColor_total_witness :
    ∃ c, ((ImageToLed.init 0 1 0 1).setImage wGlobQ.img).getLedColor wGlobQ 45 7 =
      some c :=
  getLedColor_total wGlobQ 0 1 0 1 le_rfl le_rfl 45 7

/-- C10: getLedColor reads pixel values from the module-global image; the
image passed to setImage only determines bounds, center and flip height, so
two setImage images of equal dimensions give equal colors for every query
under the same globals and configuration. -/
theorem getLedColor_ignores_setImage_pixels (G : Globals) (s : ImageToLed)
    (img1 img2 : Image) (hw : img1.width = img2.width)
    (hh : img1.height = img2.height) (angle ledRPosition : ℝ) :
    (s.setImage img1).getLedColor G angle ledRPosition =
      (s.setImage img2).getLedColor G angle ledRPosition := by
  have hr : img1.get_rect = img2.get_rect := by
    unfold Image.get_rect
    rw [hw, hh]
  rw [getLedColor_eq G _ img1.get_rect rfl, getLedColor_eq G _ img2.get_rect rfl, hr]
  rfl

/-- Witness for C10: two same-size setImage images of different pixel
contents give the same sampled color. -/
theorem getLedColor_ignores_setImage_pixels_witness :
    ((ImageToLed.init 0 3 0 3).setImage wImgA).getLedColor wGlobQ 30 2 =
      ((ImageToLed.init 0 3 0 3).setImage wImgB).getLedColor wGlobQ 30 2 :=
  getLedColor_ignores_setImage_pixels wGlobQ (ImageToLed.init 0 3 0 3)
    wImgA wImgB rfl rfl 30 2

/-- C7: after construction the stored sample point counts are odd (an even
input is incremented by 1), the derived steps equal span/(count-1) (the
angular one converted to radians) when the count exceeds 1 and 0 when it is
1, and no later operation mutates them. -/
theorem init_config_invariants (a : ℝ) (p : ℕ) (b : ℝ) (q : ℕ) :
    Odd ((ImageToLed.init a p b q).angleAveragePoints) ∧
    Odd ((ImageToLed.init a p b q).rAveragePoints) ∧
    (ImageToLed.init a p b q).angleAveragePoints = (if p % 2 = 0 then p + 1 else p) ∧
    (ImageToLed.init a p b q).rAveragePoints = (if q % 2 = 0 then q + 1 else q) ∧
    (ImageToLed.init a p b q).angleAverageResolution =
      (if 1 < (ImageToLed.init a p b q).angleAveragePoints then
        getAngleRads (a / (((ImageToLed.init a p b q).angleAveragePoints : ℝ) - 1))
      else 0) ∧
    (ImageToLed.init a p b q).rAverageResolution =
      (if 1 < (ImageToLed.init a p b q).rAveragePoints then
        b / (((ImageToLed.init a p b q).rAveragePoints : ℝ) - 1)
      else 0) ∧
    ∀ img : Image,
      ((ImageToLed.init a p b q).setImage img).angleAveragePoints =
        (ImageToLed.init a p b q).angleAveragePoints ∧
      ((ImageToLed.init a p b q).setImage img).rAveragePoints =
        (ImageToLed.init a p b q).rAveragePoints ∧
      ((ImageToLed.init a p b q).setImage img).angleAverageResolution =
        (ImageToLed.init a p b q).angleAverageResolution ∧
      ((ImageToLed.init a p b q).setImage img).rAverageResolution =
        (ImageToLed.init a p b q).rAverageResolution := by
  refine ⟨init_angleAveragePoints_odd a p b q, init_rAveragePoints_odd a p b q,
    init_angleAveragePoints_eq a p b q, init_rAveragePoints_eq a p b q, ?_, ?_,
    fun img => ⟨rfl, rfl, rfl, rfl⟩⟩
  · show getAngleRads (if 1 < (ImageToLed.init a p b q).angleAveragePoints then
        a / (((ImageToLed.init a p b q).angleAveragePoints : ℝ) - 1) else 0) = _
    split_ifs with h
    · rfl
    · simp [getAngleRads]
  · rfl

-- Indexing a footprint cell.

lemma footprintGrid_length (s : ImageToLed) (bound : Rect) (angle ledRPosition : ℝ) :
    (footprintGrid s bound angle ledRPosition).length = s.angleAveragePoints := by
  unfold footprintGrid
  simp

lemma footprintGrid_eq_cells (s : ImageToLed) (bound : Rect) (angle ledRPosition : ℝ) :
    footprintGrid s bound angle ledRPosition =
      (List.range s.angleAveragePoints).map fun (t : ℕ) =>
        (List.range s.rAveragePoints).map (specCell s bound angle ledRPosition t) := rfl

lemma footprintGrid_cell (s : ImageToLed) (bound : Rect) (angle ledRPosition : ℝ)
    (t r : ℕ) (ht : t < s.angleAveragePoints) (hr2 : r < s.rAveragePoints) :
    ∃ row, (footprintGrid s bound angle ledRPosition)[t]? = some row ∧
      row[r]? = some (specCell s bound angle ledRPosition t r) := by
  rw [footprintGrid_eq_cells]
  refine ⟨(List.range s.rAveragePoints).map (specCell s bound angle ledRPosition t), ?_, ?_⟩
  · rw [List.getElem?_map, List.getElem?_range ht]
    rfl
  · rw [List.getElem?_map, List.getElem?_range hr2]
    rfl

/-- C8: the middle element of the footprint grid (index (n-1)/2 in both axes,
counts odd as the constructor guarantees) is the undisplaced polar-to-Cartesian
projection of the query, and with both counts equal to 1 the whole grid is
that single point. -/
theorem footprint_middle_projection (s : ImageToLed) (bound : Rect)
    (hb : s.imgBound = some bound)
    (hodd1 : Odd s.angleAveragePoints) (hodd2 : Odd s.rAveragePoints)
    (angle ledRPosition : ℝ) :
    ∃ g row, s.getLedColorArea angle ledRPosition = some g ∧
      g[(s.angleAveragePoints - 1) / 2]? = some row ∧
      row[(s.rAveragePoints - 1) / 2]? = some (plainProjection bound angle ledRPosition) ∧
      (s.angleAveragePoints = 1 → s.rAveragePoints = 1 →
        g = [[plainProjection bound angle ledRPosition]]) := by
  obtain ⟨k, hk⟩ := hodd1
  obtain ⟨l, hl⟩ := hodd2
  have htlt : (s.angleAveragePoints - 1) / 2 < s.angleAveragePoints := by omega
  have hrlt : (s.rAveragePoints - 1) / 2 < s.rAveragePoints := by omega
  obtain ⟨row, hrow, hcell⟩ := footprintGrid_cell s bound angle ledRPosition
    ((s.angleAveragePoints - 1) / 2) ((s.rAveragePoints - 1) / 2) htlt hrlt
  have hmid : specCell s bound angle ledRPosition
      ((s.angleAveragePoints - 1) / 2) ((s.rAveragePoints - 1) / 2) =
      plainProjection bound angle ledRPosition := by
    unfold specCell plainProjection
    have hca : ((((s.angleAveragePoints - 1) / 2 : ℕ) : ℝ) -
        ((s.angleAveragePoints : ℝ) - 1) / 2) = 0 := by
      have hdiv : (s.angleAveragePoints - 1) / 2 = k := by omega
      rw [hdiv, hk]
      push_cast
      ring
    have hcr : ((((s.rAveragePoints - 1) / 2 : ℕ) : ℝ) -
        ((s.rAveragePoints : ℝ) - 1) / 2) = 0 := by
      have hdiv : (s.rAveragePoints - 1) / 2 = l := by omega
      rw [hdiv, hl]
      push_cast
      ring
    rw [hca, hcr]
    norm_num
  refine ⟨footprintGrid s bound angle ledRPosition, row, ?_, hrow, ?_, ?_⟩
  · unfold ImageToLed.getLedColorArea
    rw [hb]
    rfl
  · rw [hcell, hmid]
  · intro hn1 hm1
    rw [footprintGrid_eq_cells, hn1, hm1]
    have hr1 : List.range 1 = [0] := rfl
    rw [hr1]
    unfold specCell plainProjection
    rw [hn1, hm1]
    norm_num

/-- Witness for C8 at a concrete configuration and query. -/
theorem footprint_middle_projection_witness :
    ∃ g row, wStateQ.getLedColorArea 90 5 = some g ∧
      g[(wStateQ.angleAveragePoints - 1) / 2]? = some row ∧
      row[(wStateQ.rAveragePoints - 1) / 2]? =
        some (plainProjection wImgQ.get_rect 90 5) ∧
      (wStateQ.angleAveragePoints = 1 → wStateQ.rAveragePoints = 1 →
        g = [[plainProjection wImgQ.get_rect 90 5]]) :=
  footprint_middle_projection wStateQ wImgQ.get_rect rfl (by decide) (by decide) 90 5

-- The sweep with increment 1 visits the integer angles 0 to 359 in order.

lemma getLedColorsFrom_spec (G : Globals) (s : ImageToLed)
    (htot : ∀ a r : ℝ, ∃ c, s.getLedColor G a r = some c) (ledRPosition : ℝ) :
    ∀ k n : ℕ, n + k = 360 →
      ∃ cs, getLedColorsFrom G s 1 ledRPosition one_pos (n : ℝ) = some cs ∧
        cs.length = k ∧
        ∀ i, ∀ hi : i < cs.length,
          some (cs.get ⟨i, hi⟩) = s.getLedColor G ((n + i : ℕ) : ℝ) ledRPosition := by
  intro k
  induction k with
  | zero =>
    intro n hn
    have hn360 : n = 360 := by omega
    subst hn360
    refine ⟨[], ?_, rfl, ?_⟩
    · rw [getLedColorsFrom, dif_neg]
      push_cast
      norm_num
    · intro i hi
      exact absurd hi (by simp)
  | succ k ih =>
    intro n hn
    have hn360 : n < 360 := by omega
    have hnr : (n : ℝ) < 360 := by exact_mod_cast hn360
    obtain ⟨c, hc⟩ := htot (n : ℝ) ledRPosition
    obtain ⟨cs, hcs, hlen, helem⟩ := ih (n + 1) (by omega)
    have hcast : ((n : ℝ) + 1) = ((n + 1 : ℕ) : ℝ) := by push_cast; ring
    refine ⟨c :: cs, ?_, by simp [hlen], ?_⟩
    · rw [getLedColorsFrom, dif_pos hnr, hc, hcast, hcs]
    · intro i hi
      cases i with
      | zero =>
        show some c = s.getLedColor G ((n + 0 : ℕ) : ℝ) ledRPosition
        rw [Nat.add_zero, ← hc]
      | succ j =>
        have hj : j < cs.length := by simpa using hi
        have hstep := helem j hj
        show some (cs.get ⟨j, hj⟩) = s.getLedColor G ((n + (j + 1) : ℕ) : ℝ) ledRPosition
        rw [hstep]
        congr 2
        omega

/-- C9: getLedColors iterates the angle from 0 while it is below 360 in steps
of the increment, appending getLedColor at each angle; with increment 1 it
produces exactly 360 colors, the element at index i being the color for angle
i degrees. -/
theorem getLedColors_360 (G : Globals) (a : ℝ) (p : ℕ) (b : ℝ) (q : ℕ)
    (hw : 1 ≤ G.img.width) (hh : 1 ≤ G.img.height) (ledRPosition : ℝ) :
    ∃ cs, ((ImageToLed.init a p b q).setImage G.img).getLedColors G 1 ledRPosition
        one_pos = some cs ∧
      cs.length = 360 ∧
      ∀ i, ∀ hi : i < cs.length,
        some (cs.get ⟨i, hi⟩) =
          ((ImageToLed.init a p b q).setImage G.img).getLedColor G (i : ℝ)
            ledRPosition := by
  have htot : ∀ ang r : ℝ,
      ∃ c, ((ImageToLed.init a p b q).setImage G.img).getLedColor G ang r = some c :=
    fun ang r => getLedColor_total_aux G _ G.img.get_rect rfl rfl rfl hw hh ang r
  obtain ⟨cs, hcs, hlen, helem⟩ := getLedColorsFrom_spec G _ htot ledRPosition 360 0 rfl
  refine ⟨cs, ?_, hlen, ?_⟩
  · unfold ImageToLed.getLedColors
    simpa using hcs
  · intro i hi
    simpa using helem i hi

/-- Witness for C9 at a concrete configuration, image and radius. -/
theorem getLedColors_360_witness :
    ∃ cs, ((ImageToLed.init 0 1 0 1).setImage wGlobQ.img).getLedColors wGlobQ 1 2
        one_pos = some cs ∧
      cs.length = 360 ∧
      ∀ i, ∀ hi : i < cs.length,
        some (cs.get ⟨i, hi⟩) =
          ((ImageToLed.init 0 1 0 1).setImage wGlobQ.img).getLedColor wGlobQ (i : ℝ) 2 :=
  getLedColors_360 wGlobQ 0 1 0 1 le_rfl le_rfl 2

/-- C5: during one traversal, an out-of-bounds footprint point is processed
without error and contributes the most recent in-bounds pixel seen earlier
(lastGoodPixel); when no in-bounds pixel has been seen yet the contributed
pixel is the background color at full opacity. -/
theorem oobPoint_uses_lastGoodPixel (G : Globals) (bound : Rect)
    (hbw : bound.width = G.img.width) (hbh : bound.height = G.img.height)
    (hw : 1 ≤ G.img.width) (hh : 1 ≤ G.img.height)
    (ps : List (ℝ × ℝ)) (p : ℝ × ℝ) (hp : ¬ inBounds bound p) :
    ∃ st, processPoints G bound (initialAcc G) ps = some st ∧
      st.lastGoodPixel = substPixel G.backgroundFrameColor
        ((lastInBoundsPixel G bound ps).getD (bgPixel G)) ∧
      processPoints G bound (initialAcc G) (ps ++ [p]) =
        some (accumulate G.backgroundFrameColor st
          ((lastInBoundsPixel G bound ps).getD (bgPixel G))) := by
  have hfix : substPixel G.backgroundFrameColor (initialAcc G).lastGoodPixel =
      (initialAcc G).lastGoodPixel := substPixel_bgPixel G
  obtain ⟨st, hst, hlast⟩ :=
    processPoints_lastGood G bound hbw hbh hw hh ps (initialAcc G) hfix
  have hinit : (initialAcc G).lastGoodPixel = bgPixel G := rfl
  rw [hinit] at hlast
  refine ⟨st, hst, hlast, ?_⟩
  rw [processPoints_append, hst, Option.some_bind']
  show (processPoint G bound st p).bind
    (fun st2 => processPoints G bound st2 []) = _
  unfold processPoint
  rw [if_neg hp, Option.some_bind']
  show some (accumulate G.backgroundFrameColor st st.lastGoodPixel) = _
  rw [hlast, accumulate_substPixel]

/-- Witness for C5: a concrete traversal whose appended point is out of
bounds. -/
theorem oobPoint_uses_lastGoodPixel_witness :
    ∃ st, processPoints wGlobT wImgT.get_rect (initialAcc wGlobT)
        [((1 : ℝ), (1 : ℝ))] = some st ∧
      st.lastGoodPixel = substPixel wGlobT.backgroundFrameColor
        ((lastInBoundsPixel wGlobT wImgT.get_rect [((1 : ℝ), (1 : ℝ))]).getD
          (bgPixel wGlobT)) ∧
      processPoints wGlobT wImgT.get_rect (initialAcc wGlobT)
          ([((1 : ℝ), (1 : ℝ))] ++ [((9 : ℝ), (0 : ℝ))]) =
        some (accumulate wGlobT.backgroundFrameColor st
          ((lastInBoundsPixel wGlobT wImgT.get_rect [((1 : ℝ), (1 : ℝ))]).getD
            (bgPixel wGlobT))) :=
  oobPoint_uses_lastGoodPixel wGlobT wImgT.get_rect rfl rfl
    (by norm_num [wGlobT, wImgT]) (by norm_num [wGlobT, wImgT]) [((1 : ℝ), (1 : ℝ))]
    ((9 : ℝ), (0 : ℝ)) (by norm_num [inBounds, wImgT, Image.get_rect])

-- A traversal of in-bounds fully transparent pixels leaves the sums at zero.

lemma processPoints_transparent (G : Globals) (bound : Rect)
    (hbw : bound.width = G.img.width) (hbh : bound.height = G.img.height)
    (hw : 1 ≤ G.img.width) (hh : 1 ≤ G.img.height)
    (halpha : ∀ x y, (G.img.pix x y).alpha = 0) :
    ∀ (ps : List (ℝ × ℝ)) (st : AccState), (∀ aa ∈ ps, inBounds bound aa) →
      ∃ st2, processPoints G bound st ps = some st2 ∧
        st2.red = st.red ∧ st2.green = st.green ∧ st2.blue = st.blue := by
  intro ps
  induction ps with
  | nil =>
    intro st _
    exact ⟨st, rfl, rfl, rfl, rfl⟩
  | cons aa rest ih =>
    intro st hin
    have hina : inBounds bound aa := hin aa (by simp)
    have hstep : processPoint G bound st aa = some (accumulate G.backgroundFrameColor st
        (G.img.pix (truncInt aa.1).toNat (truncInt aa.2).toNat)) := by
      unfold processPoint
      rw [if_pos hina, get_at_of_inBounds G bound hbw hbh hw hh aa hina]
      rfl
    have hred : (accumulate G.backgroundFrameColor st
        (G.img.pix (truncInt aa.1).toNat (truncInt aa.2).toNat)).red = st.red := by
      rw [accumulate_red, halpha]
      norm_num
    have hgreen : (accumulate G.backgroundFrameColor st
        (G.img.pix (truncInt aa.1).toNat (truncInt aa.2).toNat)).green = st.green := by
      rw [accumulate_green, halpha]
      norm_num
    have hblue : (accumulate G.backgroundFrameColor st
        (G.img.pix (truncInt aa.1).toNat (truncInt aa.2).toNat)).blue = st.blue := by
      rw [accumulate_blue, halpha]
      norm_num
    obtain ⟨st2, hst2, h1, h2, h3⟩ := ih (accumulate G.backgroundFrameColor st
      (G.img.pix (truncInt aa.1).toNat (truncInt aa.2).toNat))
      (fun x hx => hin x (by simp [hx]))
    refine ⟨st2, ?_, ?_, ?_, ?_⟩
    · show (processPoint G bound st aa).bind _ = _
      rw [hstep, Option.some_bind']
      exact hst2
    · rw [h1, hred]
    · rw [h2, hgreen]
    · rw [h3, hblue]

/-- C4: on an image whose every pixel has alpha 0, a query whose footprint
lies fully in bounds samples to zero black, not to the background color, even
though lastGoodPixel starts as the background at full opacity. -/
theorem transparentImage_black (G : Globals) (a : ℝ) (p : ℕ) (b : ℝ) (q : ℕ)
    (hw : 1 ≤ G.img.width) (hh : 1 ≤ G.img.height)
    (halpha : ∀ x y, (G.img.pix x y).alpha = 0) (angle ledRPosition : ℝ)
    (hin : ∀ aa ∈ (footprintGrid ((ImageToLed.init a p b q).setImage G.img)
        G.img.get_rect angle ledRPosition).flatten, inBounds G.img.get_rect aa) :
    ((ImageToLed.init a p b q).setImage G.img).getLedColor G angle ledRPosition =
      some (0, 0, 0) := by
  obtain ⟨st2, hst2, h1, h2, h3⟩ := processPoints_transparent G G.img.get_rect
    rfl rfl hw hh halpha
    ((footprintGrid ((ImageToLed.init a p b q).setImage G.img)
      G.img.get_rect angle ledRPosition).flatten) (initialAcc G) hin
  rw [getLedColor_eq G _ G.img.get_rect rfl, processRows_eq_flatten, hst2]
  simp only [Option.map_some']
  have hr : st2.red = 0 := by rw [h1]; rfl
  have hg : st2.green = 0 := by rw [h2]; rfl
  have hb2 : st2.blue = 0 := by rw [h3]; rfl
  rw [hr, hg, hb2]
  norm_num

/-- Witness for C4: the fully transparent 3x3 image sampled at its center
yields black, not the white background. -/
theorem transparentImage_black_witness :
    wStateT.getLedColor wGlobT 0 0 = some (0, 0, 0) := by
  have hcell : specCell ((ImageToLed.init 0 1 0 1).setImage wGlobT.img)
      wGlobT.img.get_rect 0 0 0 0 = ((1 : ℝ), (2 : ℝ)) := by
    unfold specCell
    norm_num [ImageToLed.init, ImageToLed.setImage, wGlobT, wImgT, Image.get_rect,
      Rect.centerx, Rect.centery, getAngleRads]
  have hin : ∀ aa ∈ (footprintGrid ((ImageToLed.init 0 1 0 1).setImage wGlobT.img)
      wGlobT.img.get_rect 0 0).flatten, inBounds wGlobT.img.get_rect aa := by
    intro aa ha
    rw [footprintGrid_eq_cells] at ha
    have hflat : ((List.range
        (((ImageToLed.init 0 1 0 1).setImage wGlobT.img).angleAveragePoints)).map
          fun (t : ℕ) => (List.range
            (((ImageToLed.init 0 1 0 1).setImage wGlobT.img).rAveragePoints)).map
              (specCell ((ImageToLed.init 0 1 0 1).setImage wGlobT.img)
                wGlobT.img.get_rect 0 0 t)).flatten =
        [specCell ((ImageToLed.init 0 1 0 1).setImage wGlobT.img)
          wGlobT.img.get_rect 0 0 0 0] := rfl
    rw [hflat, hcell] at ha
    simp only [List.mem_singleton] at ha
    subst ha
    norm_num [inBounds, wGlobT, wImgT, Image.get_rect]
  exact transparentImage_black wGlobT 0 1 0 1 (by norm_num [wGlobT, wImgT])
    (by norm_num [wGlobT, wImgT]) (fun x y => rfl) 0 0 hin

/-- C3 counterexample: on a 1x1 fully red image over a black background the
query angle 0 and radius 10 puts the single footprint point out of bounds
before any in-bounds pixel has been seen, so getLedColor returns the
background-derived black, not the pixel red; the result is therefore not
independent of the query. -/
theorem singlePixel_query_dependence_cex :
    ((ImageToLed.init 0 1 0 1).setImage wImgRed).getLedColor wGlobRed 0 10 =
      some (0, 0, 0) ∧
    ((0 : ℝ), (0 : ℝ), (0 : ℝ)) ≠
      (((wImgRed.pix 0 0).red : ℝ), ((wImgRed.pix 0 0).green : ℝ),
        ((wImgRed.pix 0 0).blue : ℝ)) := by
  constructor
  · have hcell : specCell ((ImageToLed.init 0 1 0 1).setImage wImgRed)
        wImgRed.get_rect 0 10 0 0 = ((10 : ℝ), (1 : ℝ)) := by
      unfold specCell
      norm_num [ImageToLed.init, ImageToLed.setImage, wImgRed, Image.get_rect,
        Rect.centerx, Rect.centery, getAngleRads, Real.cos_zero, Real.sin_zero]
    have hgrid : footprintGrid ((ImageToLed.init 0 1 0 1).setImage wImgRed)
        wImgRed.get_rect 0 10 =
        [[specCell ((ImageToLed.init 0 1 0 1).setImage wImgRed)
          wImgRed.get_rect 0 10 0 0]] := rfl
    have hoob : ¬ inBounds wImgRed.get_rect ((10 : ℝ), (1 : ℝ)) := by
      norm_num [inBounds, wImgRed, Image.get_rect]
    rw [getLedColor_eq wGlobRed _ wImgRed.get_rect rfl, processRows_eq_flatten,
      hgrid, hcell]
    have hflat : ([[((10 : ℝ), (1 : ℝ))]] : List (List (ℝ × ℝ))).flatten =
        [((10 : ℝ), (1 : ℝ))] := rfl
    rw [hflat]
    have hpp : processPoints wGlobRed wImgRed.get_rect (initialAcc wGlobRed)
        [((10 : ℝ), (1 : ℝ))] =
        some (accumulate wGlobRed.backgroundFrameColor (initialAcc wGlobRed)
          (initialAcc wGlobRed).lastGoodPixel) := by
      show (processPoint wGlobRed wImgRed.get_rect (initialAcc wGlobRed)
        ((10 : ℝ), (1 : ℝ))).bind _ = _
      unfold processPoint
      rw [if_neg hoob, Option.some_bind']
      rfl
    rw [hpp]
    simp only [Option.map_some']
    have hacc : accumulate wGlobRed.backgroundFrameColor (initialAcc wGlobRed)
        (initialAcc wGlobRed).lastGoodPixel =
        ⟨0, 0, 0, bgPixel wGlobRed⟩ := by
      unfold accumulate initialAcc substPixel bgPixel wGlobRed
      norm_num
    rw [hacc]
    norm_num
  · norm_num [wImgRed, Prod.ext_iff]

-- On a 1x1 fully opaque image every visited pixel is the single pixel once it
-- has been seen, and each visit adds exactly its channel values.

lemma processPoints_singlePixel (G : Globals) (bound : Rect)
    (hbw : bound.width = G.img.width) (hbh : bound.height = G.img.height)
    (hw1 : G.img.width = 1) (hh1 : G.img.height = 1)
    (h255 : (G.img.pix 0 0).alpha = 255) :
    ∀ (ps : List (ℝ × ℝ)) (st : AccState),
      st.lastGoodPixel = G.img.pix 0 0 →
      ∃ st2, processPoints G bound st ps = some st2 ∧
        st2.red = st.red + (ps.length : ℝ) * ((G.img.pix 0 0).red : ℝ) ∧
        st2.green = st.green + (ps.length : ℝ) * ((G.img.pix 0 0).green : ℝ) ∧
        st2.blue = st.blue + (ps.length : ℝ) * ((G.img.pix 0 0).blue : ℝ) ∧
        st2.lastGoodPixel = G.img.pix 0 0 := by
  have hsub : substPixel G.backgroundFrameColor (G.img.pix 0 0) = G.img.pix 0 0 := by
    unfold substPixel
    rw [h255]
    norm_num
  have hlookup : ∀ aa : ℝ × ℝ, inBounds bound aa →
      G.img.get_at (truncInt aa.1) (truncInt aa.2) = some (G.img.pix 0 0) := by
    intro aa hina
    rw [get_at_of_inBounds G bound hbw hbh (by omega) (by omega) aa hina]
    obtain ⟨h1, h2, h3, h4⟩ := hina
    rw [hbw, hw1] at h2
    rw [hbh, hh1] at h4
    rw [truncInt_eq_zero aa.1 h1 (by exact_mod_cast h2),
      truncInt_eq_zero aa.2 h3 (by exact_mod_cast h4)]
    rfl
  intro ps
  induction ps with
  | nil =>
    intro st hlast
    refine ⟨st, rfl, ?_, ?_, ?_, hlast⟩ <;> norm_num
  | cons aa rest ih =>
    intro st hlast
    have hstep : processPoint G bound st aa =
        some (accumulate G.backgroundFrameColor st (G.img.pix 0 0)) := by
      unfold processPoint
      by_cases hina : inBounds bound aa
      · rw [if_pos hina, hlookup aa hina]
        rfl
      · rw [if_neg hina, hlast]
    have hlast1 : (accumulate G.backgroundFrameColor st (G.img.pix 0 0)).lastGoodPixel =
        G.img.pix 0 0 := by
      rw [accumulate_lastGood, hsub]
    obtain ⟨st2, hst2, h1, h2, h3, h4⟩ :=
      ih (accumulate G.backgroundFrameColor st (G.img.pix 0 0)) hlast1
    refine ⟨st2, ?_, ?_, ?_, ?_, h4⟩
    · show (processPoint G bound st aa).bind _ = _
      rw [hstep, Option.some_bind']
      exact hst2
    · rw [h1, accumulate_red, hsub, h255]
      push_cast [List.length_cons]
      ring
    · rw [h2, accumulate_green, hsub, h255]
      push_cast [List.length_cons]
      ring
    · rw [h3, accumulate_blue, hsub, h255]
      push_cast [List.length_cons]
      ring

/-- C3 amended: on a 1x1 fully opaque image of known RGB, getLedColor returns
exactly that RGB for every query whose first footprint point in traversal
order is in bounds (the original claim fails for queries whose first point is
out of bounds, where the background pixel is substituted instead). -/
theorem singlePixel_exact_of_first_inBounds (G : Globals) (a : ℝ) (p : ℕ)
    (b : ℝ) (q : ℕ) (hw1 : G.img.width = 1) (hh1 : G.img.height = 1)
    (h255 : (G.img.pix 0 0).alpha = 255) (angle ledRPosition : ℝ)
    (p0 : ℝ × ℝ) (rest : List (ℝ × ℝ))
    (hflat : (footprintGrid ((ImageToLed.init a p b q).setImage G.img)
        G.img.get_rect angle ledRPosition).flatten = p0 :: rest)
    (hin : inBounds G.img.get_rect p0) :
    ((ImageToLed.init a p b q).setImage G.img).getLedColor G angle ledRPosition =
      some (((G.img.pix 0 0).red : ℝ), ((G.img.pix 0 0).green : ℝ),
        ((G.img.pix 0 0).blue : ℝ)) := by
  have hsub : substPixel G.backgroundFrameColor (G.img.pix 0 0) = G.img.pix 0 0 := by
    unfold substPixel
    rw [h255]
    norm_num
  have hlookup : G.img.get_at (truncInt p0.1) (truncInt p0.2) = some (G.img.pix 0 0) := by
    rw [get_at_of_inBounds G G.img.get_rect rfl rfl (by omega) (by omega) p0 hin]
    obtain ⟨h1, h2, h3, h4⟩ := hin
    have h2w : p0.1 < 1 := by
      have := h2
      rw [show (Image.get_rect G.img).width = G.img.width from rfl, hw1] at this
      exact_mod_cast this
    have h4h : p0.2 < 1 := by
      have := h4
      rw [show (Image.get_rect G.img).height = G.img.height from rfl, hh1] at this
      exact_mod_cast this
    rw [truncInt_eq_zero p0.1 h1 h2w, truncInt_eq_zero p0.2 h3 h4h]
    rfl
  have hstep : processPoint G G.img.get_rect (initialAcc G) p0 =
      some (accumulate G.backgroundFrameColor (initialAcc G) (G.img.pix 0 0)) := by
    unfold processPoint
    rw [if_pos hin, hlookup]
    rfl
  have hlast1 : (accumulate G.backgroundFrameColor (initialAcc G)
      (G.img.pix 0 0)).lastGoodPixel = G.img.pix 0 0 := by
    rw [accumulate_lastGood, hsub]
  obtain ⟨st2, hst2, h1, h2, h3, _⟩ := processPoints_singlePixel G G.img.get_rect
    rfl rfl hw1 hh1 h255 rest
    (accumulate G.backgroundFrameColor (initialAcc G) (G.img.pix 0 0)) hlast1
  rw [getLedColor_eq G _ G.img.get_rect rfl, processRows_eq_flatten, hflat]
  have hrun : processPoints G G.img.get_rect (initialAcc G) (p0 :: rest) =
      some st2 := by
    show (processPoint G G.img.get_rect (initialAcc G) p0).bind _ = _
    rw [hstep, Option.some_bind']
    exact hst2
  rw [hrun]
  simp only [Option.map_some']
  have hN : (((ImageToLed.init a p b q).setImage G.img).numberOfAveragedPixels : ℝ) =
      (rest.length : ℝ) + 1 := by
    have hlen : ((ImageToLed.init a p b q).setImage G.img).angleAveragePoints *
        ((ImageToLed.init a p b q).setImage G.img).rAveragePoints =
        (p0 :: rest).length := by
      rw [← hflat, footprintGrid_flatten_length]
    have hnum : ((ImageToLed.init a p b q).setImage G.img).numberOfAveragedPixels =
        (p0 :: rest).length := by
      rw [← hlen]
      rfl
    rw [hnum]
    push_cast [List.length_cons]
    ring
  have hNz : (rest.length : ℝ) + 1 ≠ 0 := by positivity
  have hfr : (accumulate G.backgroundFrameColor (initialAcc G) (G.img.pix 0 0)).red =
      ((G.img.pix 0 0).red : ℝ) := by
    rw [accumulate_red, hsub, h255]
    show (0 : ℝ) + ((G.img.pix 0 0).red : ℝ) * ((255 : ℕ) : ℝ) / 255 = _
    push_cast
    ring
  have hfg : (accumulate G.backgroundFrameColor (initialAcc G) (G.img.pix 0 0)).green =
      ((G.img.pix 0 0).green : ℝ) := by
    rw [accumulate_green, hsub, h255]
    show (0 : ℝ) + ((G.img.pix 0 0).green : ℝ) * ((255 : ℕ) : ℝ) / 255 = _
    push_cast
    ring
  have hfb : (accumulate G.backgroundFrameColor (initialAcc G) (G.img.pix 0 0)).blue =
      ((G.img.pix 0 0).blue : ℝ) := by
    rw [accumulate_blue, hsub, h255]
    show (0 : ℝ) + ((G.img.pix 0 0).blue : ℝ) * ((255 : ℕ) : ℝ) / 255 = _
    push_cast
    ring
  rw [h1, h2, h3, hfr, hfg, hfb, hN]
  have hdiv : ∀ c : ℝ, (c + (rest.length : ℝ) * c) / ((rest.length : ℝ) + 1) = c := by
    intro c
    field_simp
    ring
  rw [hdiv, hdiv, hdiv]

/-- Witness for the amended C3: the 1x1 opaque image sampled at angle 90 and
radius one half has its single footprint point in bounds and returns the
pixel color exactly. -/
theorem singlePixel_exact_of_first_inBounds_witness :
    wStateQ.getLedColor wGlobQ 90 (1 / 2) = some (12, 34, 56) := by
  have hrad : getAngleRads 90 = Real.pi / 2 := by
    unfold getAngleRads
    ring
  have hres : ((ImageToLed.init 0 1 0 1).setImage wGlobQ.img).angleAverageResolution
      = 0 := by
    norm_num [ImageToLed.init, ImageToLed.setImage, getAngleRads]
  have hresr : ((ImageToLed.init 0 1 0 1).setImage wGlobQ.img).rAverageResolution
      = 0 := by
    norm_num [ImageToLed.init, ImageToLed.setImage]
  have hcell : specCell ((ImageToLed.init 0 1 0 1).setImage wGlobQ.img)
      wGlobQ.img.get_rect 90 (1 / 2) 0 0 = ((0 : ℝ), (1 / 2 : ℝ)) := by
    unfold specCell
    rw [hres, hresr]
    norm_num [hrad, Real.cos_pi_div_two, Real.sin_pi_div_two, wGlobQ, wImgQ,
      Image.get_rect, Rect.centerx, Rect.centery]
  have hflat0 : (footprintGrid ((ImageToLed.init 0 1 0 1).setImage wGlobQ.img)
      wGlobQ.img.get_rect 90 (1 / 2)).flatten =
      [specCell ((ImageToLed.init 0 1 0 1).setImage wGlobQ.img)
        wGlobQ.img.get_rect 90 (1 / 2) 0 0] := rfl
  have hflat : (footprintGrid ((ImageToLed.init 0 1 0 1).setImage wGlobQ.img)
      wGlobQ.img.get_rect 90 (1 / 2)).flatten = ((0 : ℝ), (1 / 2 : ℝ)) :: [] := by
    rw [hflat0, hcell]
  have hin : inBounds wGlobQ.img.get_rect ((0 : ℝ), (1 / 2 : ℝ)) := by
    norm_num [inBounds, wGlobQ, wImgQ, Image.get_rect]
  have hmain := singlePixel_exact_of_first_inBounds wGlobQ 0 1 0 1 rfl rfl rfl
    90 (1 / 2) ((0 : ℝ), (1 / 2 : ℝ)) [] hflat hin
  simpa [wStateQ, wGlobQ, wImgQ] using hmain
